import Mathlib

/-!
Verification of the gemx-auth wallet / referral / idempotency core.

The definitions below are shallow embeddings of the TypeScript sources:
`src/utils/referral.utils.ts`, `src/features/wallet/wallet.service.ts`,
`src/features/users/user.service.ts` and
`src/middleware/idempotency.middleware.ts`.  Strings are modelled as
`List Char` where character-level processing matters, the relational
store as explicit state records, and thrown errors as `Except` values.
-/

/-! ## Definitions -/

/-- The Base62 alphabet string `0-9A-Za-z` from `referral.utils.ts`. -/
def base62Chars : List Char :=
  "0123456789ABCDEFGHIJKLMNOPQRSTUVWXYZabcdefghijklmnopqrstuvwxyz".toList

/-- The digit-producing `while (num > 0)` loop of `generateReferralCode`:
most-significant digit first. -/
def toBase62 (n : Nat) : List Char :=
  if h : n = 0 then []
  else toBase62 (n / 62) ++ [base62Chars.getD (n % 62) ' ']
termination_by n
decreasing_by exact Nat.div_lt_self (Nat.pos_of_ne_zero h) (by decide)

/-- `generateReferralCode`: Base62 digits, left-padded with `'0'` to width 4,
prefixed with `'R'`. -/
def generateReferralCode (userId : Nat) : List Char :=
  let s := toBase62 userId
  'R' :: (List.replicate (4 - s.length) '0' ++ s)

/-- The accumulation loop of `decodeReferralCode`:
`result = result * 62 + value`, failing on a character outside the
alphabet (JS `indexOf === -1`). -/
def decodeChars : List Char → Nat → Except String Nat
  | [], acc => .ok acc
  | c :: rest, acc =>
    match base62Chars.findIdx? (fun x => x == c) with
    | none => .error "Invalid referral code character"
    | some v => decodeChars rest (acc * 62 + v)

/-- `decodeReferralCode`: requires the `'R'` prefix, then folds the
remaining characters through the alphabet. -/
def decodeReferralCode : List Char → Except String Nat
  | 'R' :: rest => decodeChars rest 0
  | _ => .error "Invalid referral code format"

/-- The regular expression `R[0-9A-Za-z]+` from the spec (at least one
character after the prefix). -/
def matchesRCodePlus : List Char → Bool
  | 'R' :: rest => !rest.isEmpty && rest.all (fun c => base62Chars.contains c)
  | _ => false

/-- The weaker shape `R[0-9A-Za-z]*` actually accepted by the decoder. -/
def matchesRCodeStar : List Char → Bool
  | 'R' :: rest => rest.all (fun c => base62Chars.contains c)
  | _ => false

/-- Success test for the decoder result. -/
def decodeOk (e : Except String Nat) : Bool :=
  match e with
  | .ok _ => true
  | .error _ => false

/-- A `Wallet` row: unique key `(userId, currency)`, integer balance. -/
structure Wallet where
  id : Nat
  userId : Nat
  currency : String
  balance : Int
deriving Repr, DecidableEq

/-- Transaction type enum from the Prisma schema. -/
inductive TxnType where
  | CREDIT
  | DEBIT
deriving Repr, DecidableEq

/-- A `WalletTransaction` row. -/
structure WalletTransaction where
  id : Nat
  walletId : Nat
  type : TxnType
  amount : Int
  description : String
  internalNotes : Option String
  referenceId : Option String
  createdAt : Nat
deriving Repr, DecidableEq

/-- The relational store touched by the wallet service, with id counters
and a logical clock for `createdAt`. -/
structure WalletState where
  wallets : List Wallet
  txns : List WalletTransaction
  nextWalletId : Nat
  nextTxnId : Nat
  now : Nat
deriving Repr, DecidableEq

/-- The store with no rows. -/
def emptyWalletState : WalletState :=
  { wallets := [], txns := [], nextWalletId := 0, nextTxnId := 0, now := 0 }

/-- Domain errors thrown by the wallet service (`NotFoundError`,
`BadRequestError`). -/
inductive WalletError where
  | notFound (msg : String)
  | badRequest (msg : String)
deriving Repr, DecidableEq

/-- Lookup by the unique key `userId_currency` (`findUnique` / the upsert
`where`). -/
def findWallet (st : WalletState) (userId : Nat) (currency : String) : Option Wallet :=
  st.wallets.find? (fun w => w.userId == userId && w.currency == currency)

/-- JS truthiness test used on optional strings
(`serviceName ? _ : _`, `referenceId || null`). -/
def strTruthy : Option String → Bool
  | none => false
  | some s => !(s == "")

/-- The `internalNotes` expression of credit/debit:
`serviceName ? "via " + serviceName : null`. -/
def mkInternalNotes (serviceName : Option String) : Option String :=
  if strTruthy serviceName then some ("via " ++ serviceName.getD "") else none

/-- The `referenceId` expression of credit/debit:
`serviceName ? serviceName + ":" + (referenceId || "") : (referenceId || null)`. -/
def mkReferenceId (referenceId serviceName : Option String) : Option String :=
  if strTruthy serviceName then some (serviceName.getD "" ++ ":" ++ referenceId.getD "")
  else if strTruthy referenceId then referenceId
  else none

/-- `WalletService.creditWallet`: upsert the wallet row (create with
`balance = amount` if absent, else increment), then append one CREDIT
transaction; the whole body runs in one `prisma.$transaction`. -/
def creditWallet (userId : Nat) (currency : String) (amount : Int)
    (userDescription : String) (referenceId serviceName : Option String)
    (st : WalletState) : WalletTransaction × WalletState :=
  match findWallet st userId currency with
  | some w =>
    let txn : WalletTransaction :=
      { id := st.nextTxnId, walletId := w.id, type := .CREDIT, amount := amount,
        description := userDescription,
        internalNotes := mkInternalNotes serviceName,
        referenceId := mkReferenceId referenceId serviceName,
        createdAt := st.now }
    (txn,
      { st with
        wallets := st.wallets.map (fun x =>
          if x.userId == userId && x.currency == currency then
            { x with balance := x.balance + amount }
          else x),
        txns := st.txns ++ [txn],
        nextTxnId := st.nextTxnId + 1,
        now := st.now + 1 })
  | none =>
    let txn : WalletTransaction :=
      { id := st.nextTxnId, walletId := st.nextWalletId, type := .CREDIT, amount := amount,
        description := userDescription,
        internalNotes := mkInternalNotes serviceName,
        referenceId := mkReferenceId referenceId serviceName,
        createdAt := st.now }
    (txn,
      { st with
        wallets := st.wallets ++
          [{ id := st.nextWalletId, userId := userId, currency := currency,
             balance := amount }],
        txns := st.txns ++ [txn],
        nextWalletId := st.nextWalletId + 1,
        nextTxnId := st.nextTxnId + 1,
        now := st.now + 1 })

/-- `WalletService.debitWallet`: look up the wallet (`NotFound` if absent),
check `balance >= amount` (`Insufficient balance` otherwise), decrement
the balance and append one DEBIT transaction with `amount = -amount`.
A thrown error rolls the `prisma.$transaction` back, so the error cases
return the input state unchanged. -/
def debitWallet (userId : Nat) (currency : String) (amount : Int)
    (userDescription : String) (referenceId serviceName : Option String)
    (st : WalletState) : Except WalletError WalletTransaction × WalletState :=
  match findWallet st userId currency with
  | none => (.error (.notFound (currency ++ " wallet not found")), st)
  | some w =>
    if w.balance < amount then
      (.error (.badRequest "Insufficient balance"), st)
    else
      let txn : WalletTransaction :=
        { id := st.nextTxnId, walletId := w.id, type := .DEBIT, amount := -amount,
          description := userDescription,
          internalNotes := mkInternalNotes serviceName,
          referenceId := mkReferenceId referenceId serviceName,
          createdAt := st.now }
      (.ok txn,
        { st with
          wallets := st.wallets.map (fun x =>
            if x.userId == userId && x.currency == currency then
              { x with balance := x.balance - amount }
            else x),
          txns := st.txns ++ [txn],
          nextTxnId := st.nextTxnId + 1,
          now := st.now + 1 })

/-- `WalletService.getBalance`: reads the user's wallet rows and reports
the `points`, `usdt` and `gemx` balances, defaulting each to 0
(`wallets.find(...)?.balance || 0`); no row is created. -/
def getBalance (userId : Nat) (st : WalletState) : List (String × Int) :=
  let ws := st.wallets.filter (fun w => w.userId == userId)
  [("points", (match ws.find? (fun w => w.currency == "points") with
               | some w => w.balance | none => 0)),
   ("usdt", (match ws.find? (fun w => w.currency == "usdt") with
             | some w => w.balance | none => 0)),
   ("gemx", (match ws.find? (fun w => w.currency == "gemx") with
             | some w => w.balance | none => 0))]

/-- The currency enum of `internalCreditSchema` in
`internal-wallet.validation.ts`. -/
def internalCreditCurrencies : List String :=
  ["points", "usdt", "gemx", "gap", "commission", "gap_ref", "commission_ref"]

/-- Substring containment on character lists (Prisma `contains`). -/
def containsSub (hay needle : List Char) : Bool :=
  needle.isPrefixOf hay ||
    match hay with
    | [] => false
    | _ :: t => containsSub t needle

/-- The `where` filter of `getTransactionByReference`: wallet currency
equals `walletType`, transaction type matches, `referenceId` contains the
query substring, and — only when `userId` is truthy — the wallet belongs
to that user. -/
def txnrefMatches (st : WalletState) (walletType : String) (transactionType : TxnType)
    (referenceId : String) (userId : Option Nat) (t : WalletTransaction) : Bool :=
  (st.wallets.any (fun w =>
    w.id == t.walletId && w.currency == walletType &&
      (match userId with
       | some u => if u == 0 then true else w.userId == u
       | none => true))) &&
  (t.type == transactionType) &&
  (match t.referenceId with
   | some r => containsSub r.toList referenceId.toList
   | none => false)

/-- `findFirst` with `orderBy createdAt desc`: an element of maximal
`createdAt` among the candidates. -/
def pickLatest : List WalletTransaction → Option WalletTransaction
  | [] => none
  | t :: rest =>
    match pickLatest rest with
    | none => some t
    | some b => if b.createdAt > t.createdAt then some b else some t

/-- The audit projection (`WalletTransactionAudit`), which includes
`internalNotes` and the related wallet currency. -/
structure WalletTransactionAudit where
  id : Nat
  walletId : Nat
  type : TxnType
  amount : Int
  description : String
  internalNotes : Option String
  referenceId : Option String
  createdAt : Nat
  currency : String
deriving Repr, DecidableEq

/-- Projection of a transaction row to the audit shape. -/
def toAudit (st : WalletState) (t : WalletTransaction) : WalletTransactionAudit :=
  { id := t.id, walletId := t.walletId, type := t.type, amount := t.amount,
    description := t.description, internalNotes := t.internalNotes,
    referenceId := t.referenceId, createdAt := t.createdAt,
    currency := (match st.wallets.find? (fun w => w.id == t.walletId) with
                 | some w => w.currency
                 | none => "") }

/-- `WalletService.getTransactionByReference`. -/
def getTransactionByReference (walletType : String) (transactionType : TxnType)
    (referenceId : String) (userId : Option Nat) (st : WalletState) :
    Option WalletTransactionAudit :=
  (pickLatest (st.txns.filter
    (txnrefMatches st walletType transactionType referenceId userId))).map (toAudit st)

/-- A successful-or-failed ledger operation, for sequencing. -/
inductive WalletOp where
  | credit (userId : Nat) (currency : String) (amount : Int)
      (descr : String) (ref svc : Option String)
  | debit (userId : Nat) (currency : String) (amount : Int)
      (descr : String) (ref svc : Option String)

/-- Apply one operation; a failed debit rolls back to the input state. -/
def applyOp (st : WalletState) : WalletOp → WalletState
  | .credit u c a d r s => (creditWallet u c a d r s st).2
  | .debit u c a d r s => (debitWallet u c a d r s st).2

/-- Apply a sequence of operations in order. -/
def applyOps (st : WalletState) (ops : List WalletOp) : WalletState :=
  ops.foldl applyOp st

/-- Signed sum of the amounts of the transactions belonging to a wallet. -/
def walletTxnSum (txns : List WalletTransaction) (wid : Nat) : Int :=
  ((txns.filter (fun t => t.walletId == wid)).map (fun t => t.amount)).sum

/-- Structural well-formedness maintained by the store: unique
`(userId, currency)` keys and wallet ids, ids below the counters. -/
structure WalletWF (st : WalletState) : Prop where
  keys_distinct : st.wallets.Pairwise
    (fun a b => ¬(a.userId = b.userId ∧ a.currency = b.currency))
  ids_distinct : st.wallets.Pairwise (fun a b => a.id ≠ b.id)
  ids_lt : ∀ w ∈ st.wallets, w.id < st.nextWalletId
  txn_wallet_ids_lt : ∀ t ∈ st.txns, t.walletId < st.nextWalletId

/-- Ledger/balance consistency: every wallet balance equals the signed
sum of its transactions. -/
def BalancedLedger (st : WalletState) : Prop :=
  ∀ w ∈ st.wallets, w.balance = walletTxnSum st.txns w.id

/-- The slice of a `User` row the referral logic reads and writes. -/
structure URow where
  id : Nat
  referrerId : Option Nat
deriving Repr, DecidableEq

/-- Boolean membership on `Nat` lists (the JS `Set.has`). -/
def natMem (x : Nat) : List Nat → Bool
  | [] => false
  | y :: t => (y == x) || natMem x t

/-- `prisma.user.findUnique({ where: { id } })`. -/
def findUser (store : List URow) (id : Nat) : Option URow :=
  store.find? (fun u => u.id == id)

/-- One chain step of the cycle walk:
`currentId = user?.referrerId || null` (a missing user or a falsy
`referrerId` terminates the chain). -/
def refStep (store : List URow) (id : Nat) : Option Nat :=
  match findUser store id with
  | none => none
  | some u =>
    match u.referrerId with
    | none => none
    | some r => if r == 0 then none else some r

/-- The visited-set walk inside `checkCircularReference`: stop with
`false` on a revisited node or a dead end, with `true` when `userId` is
met. -/
def walk (store : List URow) (userId : Nat) (current : Nat) (visited : List Nat) : Bool :=
  if h1 : natMem current visited then false
  else if current == userId then true
  else
    match h3 : refStep store current with
    | none => false
    | some nxt => walk store userId nxt (current :: visited)
termination_by ((store.map URow.id).filter (fun i => !(natMem i visited))).length
decreasing_by
  have hmono : ∀ (l v : List Nat) (x : Nat),
      (l.filter (fun i => !(natMem i (x :: v)))).length ≤
        (l.filter (fun i => !(natMem i v))).length := by
    intro l v x
    apply List.Sublist.length_le
    apply List.monotone_filter_right
    intro a ha
    simp only [Bool.not_eq_true', natMem, Bool.or_eq_false_iff] at ha ⊢
    exact ha.2
  have hmain : ∀ (l v : List Nat) (x : Nat), x ∈ l → natMem x v = false →
      (l.filter (fun i => !(natMem i (x :: v)))).length <
        (l.filter (fun i => !(natMem i v))).length := by
    intro l v x hx hv
    induction l with
    | nil => cases hx
    | cons a t ih =>
      by_cases hax : a = x
      · subst hax
        have ha1 : (natMem a (a :: v)) = true := by simp [natMem]
        simp only [List.filter_cons, ha1, hv, Bool.not_true, Bool.not_false, if_false,
          if_true, cond_false, cond_true]
        exact Nat.lt_succ_of_le (hmono t v a)
      · have hxt : x ∈ t := by
          cases List.mem_cons.mp hx with
          | inl h => exact absurd h.symm hax
          | inr h => exact h
        have hna : natMem a (x :: v) = natMem a v := by
          have hxa : (x == a) = false := beq_eq_false_iff_ne.mpr (Ne.symm hax)
          simp [natMem, hxa]
        simp only [List.filter_cons, hna]
        cases hnav : natMem a v with
        | true => simpa [hnav] using ih hxt
        | false => simpa [hnav] using Nat.succ_lt_succ (ih hxt)
  have hmem : current ∈ store.map URow.id := by
    revert h3
    unfold refStep
    cases hfu : findUser store current with
    | none =>
      intro h3
      cases h3
    | some urow =>
      intro _
      have hmemu := List.mem_of_find?_eq_some hfu
      have hpu := List.find?_some hfu
      have hid : urow.id = current := by simpa using hpu
      exact List.mem_map.mpr ⟨urow, hmemu, hid⟩
  exact hmain (store.map URow.id) visited current hmem
    (Bool.not_eq_true _ ▸ eq_false_of_ne_true h1)

/-- `UserService.checkCircularReference`: immediate self-reference, then
the walk from the candidate referrer with an empty visited set. -/
def checkCircularReference (store : List URow) (userId referrerId : Nat) : Bool :=
  if referrerId == userId then true else walk store userId referrerId []

/-- Spec-side reachability: iterate the `referrerId` pointer `n` times. -/
def refIter (store : List URow) : Nat → Nat → Option Nat
  | 0, c => some c
  | n + 1, c =>
    match refStep store c with
    | none => none
    | some nxt => refIter store n nxt

/-- Spec-side statement that `target` is reachable from `start` by
following `referrerId` pointers (in zero or more steps). -/
def ReachesRef (store : List URow) (start target : Nat) : Prop :=
  ∃ n, refIter store n start = some target

/-- Domain errors thrown by the user service. -/
inductive UserError where
  | notFound (msg : String)
  | conflict (msg : String)
  | badRequest (msg : String)
deriving Repr, DecidableEq

/-- JS truthiness of `user.referrerId`. -/
def refTruthy : Option Nat → Bool
  | none => false
  | some r => !(r == 0)

/-- `UserService.setReferrer`: user must exist, must not already have a
referrer, the code must decode, the referrer must exist, and the cycle
check must pass; only then is `referrerId` persisted.  All error exits
happen before any write, so they leave the store unchanged. -/
def setReferrer (store : List URow) (userId : Nat) (referralCode : List Char) :
    Except UserError URow × List URow :=
  match findUser store userId with
  | none => (.error (.notFound "User not found"), store)
  | some user =>
    if refTruthy user.referrerId then (.error (.conflict "Referrer already set"), store)
    else
      match decodeReferralCode referralCode with
      | .error _ => (.error (.badRequest "Invalid referral code"), store)
      | .ok referrerId =>
        match findUser store referrerId with
        | none => (.error (.notFound "Referrer not found"), store)
        | some _ =>
          if checkCircularReference store userId referrerId then
            (.error (.badRequest "Circular reference detected"), store)
          else
            (.ok { id := userId, referrerId := some referrerId },
             store.map (fun u =>
               if u.id == userId then { u with referrerId := some referrerId } else u))

/-- One item of the service-facing batch referrer update. -/
structure RefUpdate where
  refereeUserId : Nat
  referrerUserId : Nat
deriving Repr, DecidableEq

/-- The partitioned result of `UserService.updateReferrers`. -/
structure RefUpdateResult where
  updated : List (Nat × Nat)
  failed : List (Nat × Nat × String)
deriving Repr, DecidableEq

/-- One loop iteration of `UserService.updateReferrers`: existence of
both users is checked against the id set captured before the loop, the
cycle check runs against the current store, and the update itself sets
`referrerId` unconditionally. -/
def applyRefUpdate (existingIds : List Nat) (acc : RefUpdateResult × List URow)
    (u : RefUpdate) : RefUpdateResult × List URow :=
  let res := acc.1
  let store := acc.2
  if !(natMem u.refereeUserId existingIds) then
    ({ res with failed := res.failed ++
        [(u.refereeUserId, u.referrerUserId,
          "Referee user " ++ toString u.refereeUserId ++ " not found")] }, store)
  else if !(natMem u.referrerUserId existingIds) then
    ({ res with failed := res.failed ++
        [(u.refereeUserId, u.referrerUserId,
          "Referrer user " ++ toString u.referrerUserId ++ " not found")] }, store)
  else if checkCircularReference store u.refereeUserId u.referrerUserId then
    ({ res with failed := res.failed ++
        [(u.refereeUserId, u.referrerUserId, "Circular reference detected")] }, store)
  else
    ({ res with updated := res.updated ++ [(u.refereeUserId, u.referrerUserId)] },
     store.map (fun x =>
       if x.id == u.refereeUserId then { x with referrerId := some u.referrerUserId }
       else x))

/-- `UserService.updateReferrers`: batch loop with per-item isolation. -/
def updateReferrers (store : List URow) (updates : List RefUpdate) :
    RefUpdateResult × List URow :=
  updates.foldl (applyRefUpdate (store.map URow.id)) (⟨[], []⟩, store)

/-- What the middleware does with a request, observed at its exit points:
replay a cached response, reject with `Conflict`, or call the next
handler so the guarded operation runs. -/
inductive GateOutcome where
  | replay (result : String)
  | conflict
  | proceed
deriving Repr, DecidableEq

/-- Program counter of one in-flight request inside `ensureIdempotency`
and its controller continuation.  Each non-final phase sits at one of the
code's awaited calls, the points where the single-threaded runtime can
interleave other requests. -/
inductive ReqPhase where
  | checkingCache
  | acquiringLock
  | rechecking
  | executing
  | releasing
  | done (outcome : GateOutcome)
deriving Repr, DecidableEq

/-- The per-key system state: the two Redis keys — the result cache
(the `idempotency:` key) and the lock (the `lock:` key) — plus the phase
of every in-flight request with that idempotency key.  The 30-second lock
TTL is not modelled; expiry could only release the lock at more points. -/
structure IdemSys where
  cache : Option String
  lock : Bool
  phases : List (Nat × ReqPhase)
deriving Repr, DecidableEq

/-- Phase of a request; a request not seen before is about to run its
first cache check. -/
def phaseOf (sys : IdemSys) (req : Nat) : ReqPhase :=
  (sys.phases.lookup req).getD .checkingCache

/-- Record a request's new phase. -/
def setPhase (l : List (Nat × ReqPhase)) (req : Nat) (p : ReqPhase) :
    List (Nat × ReqPhase) :=
  match l with
  | [] => [(req, p)]
  | (r, q) :: t => if r == req then (req, p) :: t else (r, q) :: setPhase t req p

/-- One awaited step of one request: the first `getCache(resultKey)`, the
lock `SET NX PX 30000`, the post-wait `getCache` re-check, the completion
of the guarded operation (a success runs the controller's `setCache`
before the response is sent; an error caches nothing), and the
`finish`/`close` handler's `redis.del(lockKey)`.  In the middleware these
are separate awaits, so other requests' steps can fall between any two of
them. -/
inductive IdemMicro where
  | cacheCheck (req : Nat)
  | lockAcquire (req : Nat)
  | cacheRecheck (req : Nat)
  | opComplete (req : Nat) (result : String)
  | opError (req : Nat)
  | lockRelease (req : Nat)
deriving Repr, DecidableEq

/-- Whether a step is a failing completion of the guarded operation. -/
def isOpError : IdemMicro → Bool
  | .opError _ => true
  | _ => false

/-- Execute one micro-step: the shared Redis state changes, the stepped
request advances, and an outcome is observed when the middleware replies
or lets the guarded operation run.  A step not enabled by the request's
current phase is a no-op. -/
def idemMicroStep (sys : IdemSys) : IdemMicro → IdemSys × Option GateOutcome
  | .cacheCheck req =>
    match phaseOf sys req with
    | .checkingCache =>
      match sys.cache with
      | some r =>
        ({ sys with phases := setPhase sys.phases req (.done (.replay r)) },
         some (.replay r))
      | none => ({ sys with phases := setPhase sys.phases req .acquiringLock }, none)
    | _ => (sys, none)
  | .lockAcquire req =>
    match phaseOf sys req with
    | .acquiringLock =>
      if sys.lock then
        ({ sys with phases := setPhase sys.phases req .rechecking }, none)
      else
        ({ sys with lock := true, phases := setPhase sys.phases req .executing },
         some .proceed)
    | _ => (sys, none)
  | .cacheRecheck req =>
    match phaseOf sys req with
    | .rechecking =>
      match sys.cache with
      | some r =>
        ({ sys with phases := setPhase sys.phases req (.done (.replay r)) },
         some (.replay r))
      | none =>
        ({ sys with phases := setPhase sys.phases req (.done .conflict) },
         some .conflict)
    | _ => (sys, none)
  | .opComplete req result =>
    match phaseOf sys req with
    | .executing =>
      ({ sys with cache := some result, phases := setPhase sys.phases req .releasing },
       none)
    | _ => (sys, none)
  | .opError req =>
    match phaseOf sys req with
    | .executing => ({ sys with phases := setPhase sys.phases req .releasing }, none)
    | _ => (sys, none)
  | .lockRelease req =>
    match phaseOf sys req with
    | .releasing =>
      ({ sys with lock := false, phases := setPhase sys.phases req (.done .proceed) },
       none)
    | _ => (sys, none)

/-- Run a schedule of micro-steps, collecting the observed outcomes. -/
def idemMicroRun (sys : IdemSys) : List IdemMicro → IdemSys × List GateOutcome
  | [] => (sys, [])
  | e :: rest =>
    ((idemMicroRun (idemMicroStep sys e).1 rest).1,
     (match (idemMicroStep sys e).2 with | some o => [o] | none => []) ++
       (idemMicroRun (idemMicroStep sys e).1 rest).2)

/-- The fresh per-key state: nothing cached, lock free, no requests seen. -/
def idemInit : IdemSys := { cache := none, lock := false, phases := [] }

/-- Number of times the guarded operation is allowed to execute. -/
def proceedCount (outs : List GateOutcome) : Nat :=
  (outs.filter (fun o => o == GateOutcome.proceed)).length

/-- The per-currency balance reported for an existing wallet row, 0
otherwise (spec-side abbreviation used to state the getBalance claims). -/
def walletBal (st : WalletState) (u : Nat) (c : String) : Int :=
  match findWallet st u c with
  | some w => w.balance
  | none => 0

/-- A small concrete store with two transactions matching the same
reference query, used to exercise `getTransactionByReference`. -/
def sampleAuditState : WalletState :=
  { wallets := [{ id := 0, userId := 1, currency := "points", balance := 30 }],
    txns := [{ id := 0, walletId := 0, type := .CREDIT, amount := 10,
               description := "a", internalNotes := some "via svc",
               referenceId := some "svc:ord_1", createdAt := 0 },
             { id := 1, walletId := 0, type := .CREDIT, amount := 20,
               description := "b", internalNotes := some "via svc",
               referenceId := some "svc:ord_12", createdAt := 1 }],
    nextWalletId := 1, nextTxnId := 2, now := 2 }

/-- The audit projection of the later matching transaction of
`sampleAuditState`. -/
def sampleAudit : WalletTransactionAudit :=
  { id := 1, walletId := 0, type := .CREDIT, amount := 20, description := "b",
    internalNotes := some "via svc", referenceId := some "svc:ord_12",
    createdAt := 1, currency := "points" }

/-! ## Theorems -/

theorem findIdx_base62_self :
    ∀ d : Nat, d < 62 →
      base62Chars.findIdx? (fun x => x == base62Chars.getD d ' ') = some d := by
  decide

theorem decodeChars_append (s t : List Char) (acc : Nat) :
    decodeChars (s ++ t) acc =
      match decodeChars s acc with
      | .ok a => decodeChars t a
      | .error e => .error e := by
  induction s generalizing acc with
  | nil => simp [decodeChars]
  | cons c rest ih =>
    simp only [List.cons_append, decodeChars]
    cases base62Chars.findIdx? (fun x => x == c) with
    | none => rfl
    | some v => exact ih (acc * 62 + v)

theorem decodeChars_toBase62 (n : Nat) :
    ∀ acc, decodeChars (toBase62 n) acc = .ok (acc * 62 ^ (toBase62 n).length + n) := by
  induction n using Nat.strong_induction_on with
  | _ n ih =>
    intro acc
    by_cases h : n = 0
    · subst h
      rw [toBase62]
      simp [decodeChars]
    · rw [toBase62]
      simp only [h, dite_false]
      rw [decodeChars_append]
      have hdiv : n / 62 < n := Nat.div_lt_self (Nat.pos_of_ne_zero h) (by decide)
      rw [ih (n / 62) hdiv acc]
      have hmod : n % 62 < 62 := Nat.mod_lt _ (by decide)
      simp only [decodeChars, findIdx_base62_self (n % 62) hmod]
      rw [List.length_append, List.length_singleton]
      congr 1
      have hdm : 62 * (n / 62) + n % 62 = n := Nat.div_add_mod n 62
      set k := (toBase62 (n / 62)).length with hk
      calc (acc * 62 ^ k + n / 62) * 62 + n % 62
          = acc * (62 ^ k * 62) + (62 * (n / 62) + n % 62) := by ring
        _ = acc * 62 ^ (k + 1) + n := by rw [hdm, pow_succ]

theorem decodeChars_replicate_zero (k : Nat) :
    decodeChars (List.replicate k '0') 0 = .ok 0 := by
  induction k with
  | zero => rfl
  | succ m ih =>
    rw [List.replicate_succ]
    have h0 : base62Chars.findIdx? (fun x => x == '0') = some 0 := by decide
    simp [decodeChars, h0, ih]

theorem decode_generate (n : Nat) :
    decodeReferralCode (generateReferralCode n) = .ok n := by
  unfold generateReferralCode
  simp only [decodeReferralCode]
  rw [decodeChars_append, decodeChars_replicate_zero]
  show decodeChars (toBase62 n) 0 = .ok n
  rw [decodeChars_toBase62 n 0]
  simp

theorem contains_eq_isSome_findIdx (l : List Char) (c : Char) :
    l.contains c = (l.findIdx? (fun x => x == c)).isSome := by
  induction l with
  | nil => rfl
  | cons a t ih =>
    by_cases hac : c = a
    · subst hac
      simp [List.contains_cons, List.findIdx?_cons]
    · have h1 : (c == a) = false := beq_eq_false_iff_ne.mpr hac
      have h2 : (a == c) = false := beq_eq_false_iff_ne.mpr (Ne.symm hac)
      simp only [List.contains_cons, List.findIdx?_cons, h1, h2, Bool.false_or,
        cond_false, if_false]
      rw [ih]
      cases hfi : t.findIdx? (fun x => x == c) <;> simp [List.findIdx?_succ, hfi]

theorem decodeChars_isOk (rest : List Char) (acc : Nat) :
    decodeOk (decodeChars rest acc) = rest.all (fun c => base62Chars.contains c) := by
  induction rest generalizing acc with
  | nil => rfl
  | cons c t ih =>
    simp only [decodeChars, List.all_cons]
    cases hfi : base62Chars.findIdx? (fun x => x == c) with
    | none =>
      have hc : base62Chars.contains c = false := by
        rw [contains_eq_isSome_findIdx, hfi]; rfl
      rw [hc]
      rfl
    | some v =>
      have hc : base62Chars.contains c = true := by
        rw [contains_eq_isSome_findIdx, hfi]; rfl
      rw [hc, Bool.true_and]
      exact ih (acc * 62 + v)

theorem decodeChars_error_char (rest : List Char) (acc : Nat)
    (h : rest.all (fun c => base62Chars.contains c) = false) :
    decodeChars rest acc = .error "Invalid referral code character" := by
  induction rest generalizing acc with
  | nil => simp at h
  | cons c t ih =>
    simp only [decodeChars]
    cases hfi : base62Chars.findIdx? (fun x => x == c) with
    | none => rfl
    | some v =>
      show decodeChars t (acc * 62 + v) = _
      apply ih
      have hc : base62Chars.contains c = true := by
        rw [contains_eq_isSome_findIdx, hfi]; rfl
      have h' := h
      simp only [List.all_cons, hc, Bool.true_and] at h'
      exact h'

theorem decode_format_error (l : List Char) (h : ∀ rest, l ≠ 'R' :: rest) :
    decodeReferralCode l = .error "Invalid referral code format" := by
  unfold decodeReferralCode
  split
  · rename_i rest
    exact absurd rfl (h rest)
  · rfl

theorem matchesRCodeStar_not_R (l : List Char) (h : ∀ rest, l ≠ 'R' :: rest) :
    matchesRCodeStar l = false := by
  unfold matchesRCodeStar
  split
  · rename_i rest
    exact absurd rfl (h rest)
  · rfl

theorem decode_isOk_iff_star (l : List Char) :
    decodeOk (decodeReferralCode l) = matchesRCodeStar l := by
  cases l with
  | nil => rfl
  | cons c rest =>
    by_cases hc : c = 'R'
    · subst hc
      exact decodeChars_isOk rest 0
    · have hne : ∀ r, c :: rest ≠ 'R' :: r := by
        intro r he
        injection he with h1 _
        exact hc h1
      rw [decode_format_error (c :: rest) hne, matchesRCodeStar_not_R (c :: rest) hne]
      rfl

theorem natMem_iff (x : Nat) (l : List Nat) : natMem x l = true ↔ x ∈ l := by
  induction l with
  | nil => simp [natMem]
  | cons y t ih =>
    simp only [natMem, Bool.or_eq_true, beq_iff_eq, List.mem_cons, ih]
    constructor
    · rintro (h | h)
      · exact Or.inl h.symm
      · exact Or.inr h
    · rintro (h | h)
      · exact Or.inl h.symm
      · exact Or.inr h

theorem refStep_some_mem (store : List URow) (current nxt : Nat)
    (h : refStep store current = some nxt) : current ∈ store.map URow.id := by
  unfold refStep at h
  cases hf : findUser store current with
  | none => rw [hf] at h; cases h
  | some u =>
    have hmem := List.mem_of_find?_eq_some hf
    have hpu := List.find?_some hf
    have hid : u.id = current := by simpa using hpu
    exact List.mem_map.mpr ⟨u, hmem, hid⟩

theorem length_filter_mono_visited (l v : List Nat) (x : Nat) :
    ((l.filter (fun i => !(natMem i (x :: v)))).length ≤
      (l.filter (fun i => !(natMem i v))).length) := by
  apply List.Sublist.length_le
  apply List.monotone_filter_right
  intro a ha
  simp only [Bool.not_eq_true', natMem, Bool.or_eq_false_iff] at ha ⊢
  exact ha.2

theorem length_filter_visited_lt (l v : List Nat) (x : Nat)
    (hx : x ∈ l) (hv : natMem x v = false) :
    (l.filter (fun i => !(natMem i (x :: v)))).length <
      (l.filter (fun i => !(natMem i v))).length := by
  induction l with
  | nil => cases hx
  | cons a t ih =>
    by_cases hax : a = x
    · subst hax
      have h1 : (natMem a (a :: v)) = true := by
        simp [natMem]
      have h2 : (natMem a v) = false := hv
      simp only [List.filter_cons, h1, h2, Bool.not_true, Bool.not_false, if_false, if_true,
        cond_false, cond_true]
      exact Nat.lt_succ_of_le (length_filter_mono_visited t v a)
    · have hxt : x ∈ t := by
        cases List.mem_cons.mp hx with
        | inl h => exact absurd h.symm hax
        | inr h => exact h
      have hna : natMem a (x :: v) = natMem a v := by
        have : (x == a) = false := beq_eq_false_iff_ne.mpr (Ne.symm hax)
        simp [natMem, this]
      simp only [List.filter_cons, hna]
      cases hnav : natMem a v with
      | true => simpa [hnav] using ih hxt
      | false => simpa [hnav] using Nat.succ_lt_succ (ih hxt)

theorem creditWallet_eq_create (u : Nat) (c : String) (a : Int) (d : String)
    (r s : Option String) (st : WalletState) (hf : findWallet st u c = none) :
    creditWallet u c a d r s st =
      ({ id := st.nextTxnId, walletId := st.nextWalletId, type := .CREDIT, amount := a,
         description := d, internalNotes := mkInternalNotes s,
         referenceId := mkReferenceId r s, createdAt := st.now },
       { st with
         wallets := st.wallets ++
           [{ id := st.nextWalletId, userId := u, currency := c, balance := a }],
         txns := st.txns ++
           [{ id := st.nextTxnId, walletId := st.nextWalletId, type := .CREDIT, amount := a,
              description := d, internalNotes := mkInternalNotes s,
              referenceId := mkReferenceId r s, createdAt := st.now }],
         nextWalletId := st.nextWalletId + 1,
         nextTxnId := st.nextTxnId + 1,
         now := st.now + 1 }) := by
  unfold creditWallet
  rw [hf]

theorem creditWallet_eq_update (u : Nat) (c : String) (a : Int) (d : String)
    (r s : Option String) (st : WalletState) (w : Wallet)
    (hf : findWallet st u c = some w) :
    creditWallet u c a d r s st =
      ({ id := st.nextTxnId, walletId := w.id, type := .CREDIT, amount := a,
         description := d, internalNotes := mkInternalNotes s,
         referenceId := mkReferenceId r s, createdAt := st.now },
       { st with
         wallets := st.wallets.map (fun x =>
           if x.userId == u && x.currency == c then
             { x with balance := x.balance + a }
           else x),
         txns := st.txns ++
           [{ id := st.nextTxnId, walletId := w.id, type := .CREDIT, amount := a,
              description := d, internalNotes := mkInternalNotes s,
              referenceId := mkReferenceId r s, createdAt := st.now }],
         nextTxnId := st.nextTxnId + 1,
         now := st.now + 1 }) := by
  unfold creditWallet
  rw [hf]

theorem debitWallet_eq_notFound (u : Nat) (c : String) (a : Int) (d : String)
    (r s : Option String) (st : WalletState) (hf : findWallet st u c = none) :
    debitWallet u c a d r s st = (.error (.notFound (c ++ " wallet not found")), st) := by
  unfold debitWallet
  rw [hf]

theorem debitWallet_eq_insufficient (u : Nat) (c : String) (a : Int) (d : String)
    (r s : Option String) (st : WalletState) (w : Wallet)
    (hf : findWallet st u c = some w) (hlt : w.balance < a) :
    debitWallet u c a d r s st = (.error (.badRequest "Insufficient balance"), st) := by
  unfold debitWallet
  rw [hf]
  simp [hlt]

theorem debitWallet_eq_success (u : Nat) (c : String) (a : Int) (d : String)
    (r s : Option String) (st : WalletState) (w : Wallet)
    (hf : findWallet st u c = some w) (hge : a ≤ w.balance) :
    debitWallet u c a d r s st =
      (.ok { id := st.nextTxnId, walletId := w.id, type := .DEBIT, amount := -a,
             description := d, internalNotes := mkInternalNotes s,
             referenceId := mkReferenceId r s, createdAt := st.now },
       { st with
         wallets := st.wallets.map (fun x =>
           if x.userId == u && x.currency == c then
             { x with balance := x.balance - a }
           else x),
         txns := st.txns ++
           [{ id := st.nextTxnId, walletId := w.id, type := .DEBIT, amount := -a,
              description := d, internalNotes := mkInternalNotes s,
              referenceId := mkReferenceId r s, createdAt := st.now }],
         nextTxnId := st.nextTxnId + 1,
         now := st.now + 1 }) := by
  unfold debitWallet
  rw [hf]
  simp [not_lt.mpr hge]

theorem walletTxnSum_append_single (txns : List WalletTransaction)
    (t : WalletTransaction) (wid : Nat) :
    walletTxnSum (txns ++ [t]) wid =
      walletTxnSum txns wid + (if t.walletId == wid then t.amount else 0) := by
  unfold walletTxnSum
  rw [List.filter_append]
  cases h : (t.walletId == wid) with
  | true => simp [List.filter_cons, h, List.sum_append]
  | false => simp [List.filter_cons, h, List.sum_append]

theorem walletTxnSum_fresh (txns : List WalletTransaction) (wid : Nat)
    (h : ∀ t ∈ txns, t.walletId ≠ wid) : walletTxnSum txns wid = 0 := by
  unfold walletTxnSum
  have hnil : txns.filter (fun t => t.walletId == wid) = [] := by
    rw [List.filter_eq_nil_iff]
    intro t ht
    simpa using h t ht
  rw [hnil]
  rfl

theorem find?_key_map (l : List Wallet) (f : Wallet → Wallet)
    (hfu : ∀ x, (f x).userId = x.userId) (hfc : ∀ x, (f x).currency = x.currency)
    (u : Nat) (c : String) :
    List.find? (fun w => w.userId == u && w.currency == c) (l.map f) =
      Option.map f (List.find? (fun w => w.userId == u && w.currency == c) l) := by
  rw [List.find?_map]
  have hfun : ((fun w => w.userId == u && w.currency == c) ∘ f) =
      (fun w : Wallet => w.userId == u && w.currency == c) := by
    funext x
    simp [Function.comp, hfu, hfc]
  rw [hfun]

theorem wallet_key_unique {st : WalletState} (hwf : WalletWF st) {x w : Wallet}
    (hx : x ∈ st.wallets) (hw : w ∈ st.wallets)
    (hu : x.userId = w.userId) (hc : x.currency = w.currency) : x = w := by
  by_contra hne
  have hsym : Symmetric
      (fun a b : Wallet => ¬(a.userId = b.userId ∧ a.currency = b.currency)) := by
    intro a b hab hba
    exact hab ⟨hba.1.symm, hba.2.symm⟩
  exact (hwf.keys_distinct.forall hsym hx hw hne) ⟨hu, hc⟩

theorem wallet_id_unique {st : WalletState} (hwf : WalletWF st) {x w : Wallet}
    (hx : x ∈ st.wallets) (hw : w ∈ st.wallets) (hid : x.id = w.id) : x = w := by
  by_contra hne
  have hsym : Symmetric (fun a b : Wallet => a.id ≠ b.id) := by
    intro a b hab hba
    exact hab hba.symm
  exact (hwf.ids_distinct.forall hsym hx hw hne) hid

theorem balanceUpdate_preserves (st : WalletState) (u : Nat) (c : String) (dlt : Int)
    (txn : WalletTransaction) (w : Wallet)
    (hf : findWallet st u c = some w)
    (hwid : txn.walletId = w.id) (hamt : txn.amount = dlt)
    (hwf : WalletWF st) (nid nnow : Nat) :
    WalletWF { st with
      wallets := st.wallets.map (fun x =>
        if x.userId == u && x.currency == c then { x with balance := x.balance + dlt }
        else x),
      txns := st.txns ++ [txn], nextTxnId := nid, now := nnow } ∧
    (BalancedLedger st → BalancedLedger { st with
      wallets := st.wallets.map (fun x =>
        if x.userId == u && x.currency == c then { x with balance := x.balance + dlt }
        else x),
      txns := st.txns ++ [txn], nextTxnId := nid, now := nnow }) := by
  have hf' : List.find? (fun w => w.userId == u && w.currency == c) st.wallets = some w := hf
  have hwmem : w ∈ st.wallets := List.mem_of_find?_eq_some hf'
  have hwku : w.userId = u ∧ w.currency = c := by
    have hk := List.find?_some hf'
    simpa using hk
  have hfu : ∀ x : Wallet,
      ((fun x : Wallet => if x.userId == u && x.currency == c then
        { x with balance := x.balance + dlt } else x) x).userId = x.userId := by
    intro x
    by_cases hk : (x.userId == u && x.currency == c) = true
    · simp [hk]
    · simp [hk]
  have hfc : ∀ x : Wallet,
      ((fun x : Wallet => if x.userId == u && x.currency == c then
        { x with balance := x.balance + dlt } else x) x).currency = x.currency := by
    intro x
    by_cases hk : (x.userId == u && x.currency == c) = true
    · simp [hk]
    · simp [hk]
  have hfi : ∀ x : Wallet,
      ((fun x : Wallet => if x.userId == u && x.currency == c then
        { x with balance := x.balance + dlt } else x) x).id = x.id := by
    intro x
    by_cases hk : (x.userId == u && x.currency == c) = true
    · simp [hk]
    · simp [hk]
  constructor
  · constructor
    · show List.Pairwise _ (st.wallets.map _)
      rw [List.pairwise_map]
      apply hwf.keys_distinct.imp
      intro p q hpq hcon
      rw [hfu p, hfu q, hfc p, hfc q] at hcon
      exact hpq hcon
    · show List.Pairwise _ (st.wallets.map _)
      rw [List.pairwise_map]
      apply hwf.ids_distinct.imp
      intro p q hpq hcon
      rw [hfi p, hfi q] at hcon
      exact hpq hcon
    · intro w' hw'
      rcases List.mem_map.mp hw' with ⟨x, hx, rfl⟩
      show _ < st.nextWalletId
      rw [hfi x]
      exact hwf.ids_lt x hx
    · intro t ht
      rcases List.mem_append.mp ht with h | h
      · exact hwf.txn_wallet_ids_lt t h
      · rw [List.mem_singleton] at h
        rw [h, hwid]
        exact hwf.ids_lt w hwmem
  · intro hbal w' hw'
    rcases List.mem_map.mp hw' with ⟨x, hx, rfl⟩
    show _ = walletTxnSum (st.txns ++ [txn]) _
    rw [walletTxnSum_append_single, hfi x]
    by_cases hkx : (x.userId == u && x.currency == c) = true
    · have hxku : x.userId = u ∧ x.currency = c := by simpa using hkx
      have hxw : x = w := wallet_key_unique hwf hx hwmem
        (hxku.1.trans hwku.1.symm) (hxku.2.trans hwku.2.symm)
      have hid : (txn.walletId == x.id) = true := by
        rw [hwid, hxw]
        exact beq_self_eq_true _
      simp only [hkx, if_true, hid, hamt]
      rw [← hbal x hx]
    · have hne : (txn.walletId == x.id) = false := by
        apply beq_eq_false_iff_ne.mpr
        rw [hwid]
        intro he
        have hwx : w = x := wallet_id_unique hwf hwmem hx he
        apply hkx
        rw [← hwx]
        simp [hwku.1, hwku.2]
      simp only [hkx, if_false, hne]
      rw [← hbal x hx]
      simp

theorem creditWallet_preserves (u : Nat) (c : String) (a : Int) (d : String)
    (r s : Option String) (st : WalletState) (hwf : WalletWF st) :
    WalletWF (creditWallet u c a d r s st).2 ∧
      (BalancedLedger st → BalancedLedger (creditWallet u c a d r s st).2) := by
  cases hf : findWallet st u c with
  | none =>
    rw [creditWallet_eq_create u c a d r s st hf]
    have hf' : List.find? (fun w => w.userId == u && w.currency == c) st.wallets = none := hf
    have hnokey : ∀ x ∈ st.wallets, ¬(x.userId = u ∧ x.currency = c) := by
      intro x hx hk
      have hh := List.find?_eq_none.mp hf' x hx
      simp [hk.1, hk.2] at hh
    constructor
    · constructor
      · show List.Pairwise _ (st.wallets ++ _)
        rw [List.pairwise_append]
        refine ⟨hwf.keys_distinct, by simp, ?_⟩
        intro x hx b hb
        rw [List.mem_singleton] at hb
        subst hb
        exact hnokey x hx
      · show List.Pairwise _ (st.wallets ++ _)
        rw [List.pairwise_append]
        refine ⟨hwf.ids_distinct, by simp, ?_⟩
        intro x hx b hb
        rw [List.mem_singleton] at hb
        subst hb
        exact Nat.ne_of_lt (hwf.ids_lt x hx)
      · intro w hw
        rcases List.mem_append.mp hw with h | h
        · exact Nat.lt_succ_of_lt (hwf.ids_lt w h)
        · rw [List.mem_singleton] at h
          subst h
          exact Nat.lt_succ_self _
      · intro t ht
        rcases List.mem_append.mp ht with h | h
        · exact Nat.lt_succ_of_lt (hwf.txn_wallet_ids_lt t h)
        · rw [List.mem_singleton] at h
          subst h
          exact Nat.lt_succ_self _
    · intro hbal w hw
      rcases List.mem_append.mp hw with h | h
      · show _ = walletTxnSum (st.txns ++ _) _
        rw [walletTxnSum_append_single]
        have hne : (st.nextWalletId == w.id) = false :=
          beq_eq_false_iff_ne.mpr (Ne.symm (Nat.ne_of_lt (hwf.ids_lt w h)))
        simp only [hne, if_false]
        rw [← hbal w h]
        simp
      · rw [List.mem_singleton] at h
        subst h
        show (a : Int) = walletTxnSum (st.txns ++ _) st.nextWalletId
        rw [walletTxnSum_append_single]
        have h0 : walletTxnSum st.txns st.nextWalletId = 0 :=
          walletTxnSum_fresh _ _
            (fun t ht => Nat.ne_of_lt (hwf.txn_wallet_ids_lt t ht))
        simp [h0]
  | some w =>
    rw [creditWallet_eq_update u c a d r s st w hf]
    exact balanceUpdate_preserves st u c a _ w hf rfl rfl hwf _ _

theorem debitWallet_preserves (u : Nat) (c : String) (a : Int) (d : String)
    (r s : Option String) (st : WalletState) (hwf : WalletWF st) :
    WalletWF (debitWallet u c a d r s st).2 ∧
      (BalancedLedger st → BalancedLedger (debitWallet u c a d r s st).2) := by
  cases hf : findWallet st u c with
  | none =>
    rw [debitWallet_eq_notFound u c a d r s st hf]
    exact ⟨hwf, fun hb => hb⟩
  | some w =>
    by_cases hlt : w.balance < a
    · rw [debitWallet_eq_insufficient u c a d r s st w hf hlt]
      exact ⟨hwf, fun hb => hb⟩
    · rw [debitWallet_eq_success u c a d r s st w hf (not_lt.mp hlt)]
      have hmapeq : (fun x : Wallet =>
          if x.userId == u && x.currency == c then { x with balance := x.balance - a }
          else x) = (fun x : Wallet =>
          if x.userId == u && x.currency == c then { x with balance := x.balance + (-a) }
          else x) := by
        funext x
        by_cases hk : (x.userId == u && x.currency == c) = true
        · simp [hk, sub_eq_add_neg]
        · simp [hk]
      show WalletWF _ ∧ _
      rw [hmapeq]
      exact balanceUpdate_preserves st u c (-a) _ w hf rfl rfl hwf _ _

theorem applyOp_preserves (st : WalletState) (op : WalletOp) (hwf : WalletWF st) :
    WalletWF (applyOp st op) ∧
      (BalancedLedger st → BalancedLedger (applyOp st op)) := by
  cases op with
  | credit u c a d r s => exact creditWallet_preserves u c a d r s st hwf
  | debit u c a d r s => exact debitWallet_preserves u c a d r s st hwf

theorem applyOps_preserves (ops : List WalletOp) (st : WalletState)
    (hwf : WalletWF st) (hbal : BalancedLedger st) :
    WalletWF (applyOps st ops) ∧ BalancedLedger (applyOps st ops) := by
  induction ops generalizing st with
  | nil => exact ⟨hwf, hbal⟩
  | cons op rest ih =>
    have h1 := applyOp_preserves st op hwf
    exact ih (applyOp st op) h1.1 (h1.2 hbal)

theorem findWallet_after_create (st : WalletState) (u : Nat) (c : String) (a : Int)
    (hf : findWallet st u c = none) :
    List.find? (fun w => w.userId == u && w.currency == c)
      (st.wallets ++ [{ id := st.nextWalletId, userId := u, currency := c, balance := a }]) =
      some { id := st.nextWalletId, userId := u, currency := c, balance := a } := by
  have hf' : List.find? (fun w => w.userId == u && w.currency == c) st.wallets = none := hf
  rw [List.find?_append, hf']
  simp [List.find?_cons]

theorem findWallet_after_credit_update (st : WalletState) (u : Nat) (c : String)
    (a : Int) (w : Wallet) (hf : findWallet st u c = some w) :
    List.find? (fun w => w.userId == u && w.currency == c)
      (st.wallets.map (fun x =>
        if x.userId == u && x.currency == c then { x with balance := x.balance + a }
        else x)) = some { w with balance := w.balance + a } := by
  have hf' : List.find? (fun w => w.userId == u && w.currency == c) st.wallets = some w := hf
  have hk : w.userId = u ∧ w.currency = c := by
    have hp := List.find?_some hf'
    simpa using hp
  rw [find?_key_map _ _ (fun x => by by_cases h : (x.userId == u && x.currency == c) = true <;>
        simp [h])
      (fun x => by by_cases h : (x.userId == u && x.currency == c) = true <;> simp [h]) u c,
    hf']
  simp [hk.1, hk.2]

theorem findWallet_after_debit_update (st : WalletState) (u : Nat) (c : String)
    (a : Int) (w : Wallet) (hf : findWallet st u c = some w) :
    List.find? (fun w => w.userId == u && w.currency == c)
      (st.wallets.map (fun x =>
        if x.userId == u && x.currency == c then { x with balance := x.balance - a }
        else x)) = some { w with balance := w.balance - a } := by
  have hf' : List.find? (fun w => w.userId == u && w.currency == c) st.wallets = some w := hf
  have hk : w.userId = u ∧ w.currency = c := by
    have hp := List.find?_some hf'
    simpa using hp
  rw [find?_key_map _ _ (fun x => by by_cases h : (x.userId == u && x.currency == c) = true <;>
        simp [h])
      (fun x => by by_cases h : (x.userId == u && x.currency == c) = true <;> simp [h]) u c,
    hf']
  simp [hk.1, hk.2]

theorem walk_eq_visited (store : List URow) (userId current : Nat) (visited : List Nat)
    (h : natMem current visited = true) :
    walk store userId current visited = false := by
  rw [walk]
  simp [h]

theorem walk_eq_found (store : List URow) (userId current : Nat) (visited : List Nat)
    (h : natMem current visited = false) (he : current = userId) :
    walk store userId current visited = true := by
  subst he
  rw [walk]
  simp [h]

theorem walk_eq_dead (store : List URow) (userId current : Nat) (visited : List Nat)
    (h : natMem current visited = false) (hne : current ≠ userId)
    (hs : refStep store current = none) :
    walk store userId current visited = false := by
  rw [walk]
  rw [dif_neg (by simp [h])]
  rw [if_neg (by simpa using hne)]
  split
  · rfl
  · rename_i nxt hnxt
    rw [hs] at hnxt
    cases hnxt

theorem walk_eq_step (store : List URow) (userId current nxt : Nat) (visited : List Nat)
    (h : natMem current visited = false) (hne : current ≠ userId)
    (hs : refStep store current = some nxt) :
    walk store userId current visited = walk store userId nxt (current :: visited) := by
  rw [walk]
  rw [dif_neg (by simp [h])]
  rw [if_neg (by simpa using hne)]
  split
  · rename_i hnone
    rw [hs] at hnone
    cases hnone
  · rename_i nxt2 hnxt
    rw [hs] at hnxt
    injection hnxt with hinj
    rw [hinj]

theorem walk_sound (store : List URow) (userId : Nat) :
    ∀ current visited, walk store userId current visited = true →
      ∃ n, refIter store n current = some userId := by
  apply walk.induct store userId
    (motive := fun current visited =>
      walk store userId current visited = true → ∃ n, refIter store n current = some userId)
  · intro current visited h1 hw
    rw [walk_eq_visited store userId current visited h1] at hw
    cases hw
  · intro current visited h1 h2 _
    refine ⟨0, ?_⟩
    have : current = userId := by simpa using h2
    simp [refIter, this]
  · intro current visited h1 h2 h3 hw
    rw [walk_eq_dead store userId current visited (eq_false_of_ne_true h1)
      (by simpa using h2) h3] at hw
    cases hw
  · intro current visited h1 h2 nxt h3 ih hw
    rw [walk_eq_step store userId current nxt visited (eq_false_of_ne_true h1)
      (by simpa using h2) h3] at hw
    obtain ⟨n, hn⟩ := ih hw
    refine ⟨n + 1, ?_⟩
    simp [refIter, h3, hn]

theorem refIter_add_eq (store : List URow) (a b c : Nat) :
    refIter store (a + b) c =
      match refIter store a c with
      | none => none
      | some d => refIter store b d := by
  induction a generalizing c with
  | zero => simp [refIter]
  | succ n ih =>
    have hre : n + 1 + b = (n + b) + 1 := by omega
    rw [hre]
    show (match refStep store c with
          | none => none
          | some nxt => refIter store (n + b) nxt) = _
    cases hs : refStep store c with
    | none => simp [refIter, hs]
    | some nxt =>
      show refIter store (n + b) nxt = _
      rw [ih nxt]
      rw [show refIter store (n + 1) c = refIter store n nxt from by simp [refIter, hs]]

theorem walk_complete_aux (store : List URow) (userId : Nat) :
    ∀ n current visited,
      refIter store n current = some userId →
      (∀ m, m < n → refIter store m current ≠ some userId) →
      (∀ i, i < n → ∀ c, refIter store i current = some c → natMem c visited = false) →
      natMem userId visited = false →
      walk store userId current visited = true := by
  intro n
  induction n with
  | zero =>
    intro current visited h _ _ huid
    have hc : current = userId := by simpa [refIter] using h
    exact walk_eq_found store userId current visited (hc ▸ huid) hc
  | succ n ih =>
    intro current visited h hmin havoid huid
    have hstep : ∃ nxt, refStep store current = some nxt ∧
        refIter store n nxt = some userId := by
      cases hs : refStep store current with
      | none => simp [refIter, hs] at h
      | some nxt => exact ⟨nxt, rfl, by simpa [refIter, hs] using h⟩
    obtain ⟨nxt, hs, hn⟩ := hstep
    have hcv : natMem current visited = false :=
      havoid 0 (Nat.succ_pos n) current (by simp [refIter])
    have hcne : current ≠ userId := by
      intro he
      exact hmin 0 (Nat.succ_pos n) (by simp [refIter, he])
    rw [walk_eq_step store userId current nxt visited hcv hcne hs]
    apply ih nxt (current :: visited) hn
    · intro m hm hcon
      apply hmin (m + 1) (Nat.succ_lt_succ hm)
      simp [refIter, hs, hcon]
    · intro i hi c hic
      have hic' : refIter store (i + 1) current = some c := by
        simp [refIter, hs, hic]
      have hnv : natMem c visited = false :=
        havoid (i + 1) (Nat.succ_lt_succ hi) c hic'
      have hcc : c ≠ current := by
        intro he
        subst he
        have hdecomp : (i + 1) + (n - i) = n + 1 := by omega
        have hcomp := refIter_add_eq store (i + 1) (n - i) c
        rw [hdecomp, h, hic'] at hcomp
        exact hmin (n - i) (by omega) hcomp.symm
      simp [natMem, hnv, beq_eq_false_iff_ne.mpr (Ne.symm hcc)]
    · simp [natMem, huid, beq_eq_false_iff_ne.mpr hcne]

theorem checkCircular_iff_reaches (store : List URow) (userId referrerId : Nat) :
    checkCircularReference store userId referrerId = true ↔
      ReachesRef store referrerId userId := by
  constructor
  · intro h
    unfold checkCircularReference at h
    by_cases he : referrerId = userId
    · exact ⟨0, by simp [refIter, he]⟩
    · rw [if_neg (by simpa using he)] at h
      exact walk_sound store userId referrerId [] h
  · rintro ⟨n, hn⟩
    unfold checkCircularReference
    by_cases he : referrerId = userId
    · simp [he]
    · rw [if_neg (by simpa using he)]
      have hex : ∃ m, refIter store m referrerId = some userId := ⟨n, hn⟩
      apply walk_complete_aux store userId (Nat.find hex) referrerId []
      · exact Nat.find_spec hex
      · intro m hm
        exact Nat.find_min hex hm
      · intro i _ c _
        rfl
      · rfl

theorem pickLatest_eq_none_iff (l : List WalletTransaction) :
    pickLatest l = none ↔ l = [] := by
  cases l with
  | nil => simp [pickLatest]
  | cons t rest =>
    simp only [pickLatest]
    cases pickLatest rest with
    | none => simp
    | some b =>
      by_cases hgt : b.createdAt > t.createdAt
      · simp [hgt]
      · simp [hgt]

theorem pickLatest_spec :
    ∀ (l : List WalletTransaction) (t : WalletTransaction), pickLatest l = some t →
      t ∈ l ∧ ∀ u ∈ l, u.createdAt ≤ t.createdAt := by
  intro l
  induction l with
  | nil =>
    intro t h
    cases h
  | cons a rest ih =>
    intro t h
    rw [pickLatest] at h
    cases hr : pickLatest rest with
    | none =>
      rw [hr] at h
      injection h with h
      subst h
      have hrest : rest = [] := (pickLatest_eq_none_iff rest).mp hr
      subst hrest
      refine ⟨List.mem_singleton.mpr rfl, ?_⟩
      intro u hu
      rw [List.mem_singleton] at hu
      subst hu
      exact le_refl _
    | some b =>
      rw [hr] at h
      obtain ⟨hbmem, hbmax⟩ := ih b hr
      have h' : (if b.createdAt > a.createdAt then some b else some a) = some t := h
      by_cases hgt : b.createdAt > a.createdAt
      · rw [if_pos hgt] at h'
        injection h' with h'
        subst h'
        refine ⟨List.mem_cons_of_mem _ hbmem, ?_⟩
        intro u hu
        rcases List.mem_cons.mp hu with hu | hu
        · rw [hu]
          exact le_of_lt hgt
        · exact hbmax u hu
      · rw [if_neg hgt] at h'
        injection h' with h'
        subst h'
        refine ⟨List.mem_cons_self _ _, ?_⟩
        intro u hu
        rcases List.mem_cons.mp hu with hu | hu
        · rw [hu]
        · exact le_trans (hbmax u hu) (not_lt.mp hgt)

theorem proceedCount_append (l1 l2 : List GateOutcome) :
    proceedCount (l1 ++ l2) = proceedCount l1 + proceedCount l2 := by
  unfold proceedCount
  rw [List.filter_append, List.length_append]

theorem idemMicroStep_proceed_lock (sys : IdemSys) (e : IdemMicro)
    (h : (idemMicroStep sys e).2 = some GateOutcome.proceed) :
    (idemMicroStep sys e).1.lock = true := by
  cases e with
  | cacheCheck req =>
    cases hp : phaseOf sys req <;> cases hc : sys.cache <;>
      simp [idemMicroStep, hp, hc] at h ⊢
  | lockAcquire req =>
    cases hp : phaseOf sys req <;> cases hl : sys.lock <;>
      simp [idemMicroStep, hp, hl] at h ⊢
  | cacheRecheck req =>
    cases hp : phaseOf sys req <;> cases hc : sys.cache <;>
      simp [idemMicroStep, hp, hc] at h ⊢
  | opComplete req result =>
    cases hp : phaseOf sys req <;> simp [idemMicroStep, hp] at h ⊢
  | opError req =>
    cases hp : phaseOf sys req <;> simp [idemMicroStep, hp] at h ⊢
  | lockRelease req =>
    cases hp : phaseOf sys req <;> simp [idemMicroStep, hp] at h ⊢

theorem idemMicroStep_locked (sys : IdemSys) (e : IdemMicro)
    (hnorel : ∀ r, e ≠ IdemMicro.lockRelease r) (hl : sys.lock = true) :
    (idemMicroStep sys e).1.lock = true ∧
      (idemMicroStep sys e).2 ≠ some GateOutcome.proceed := by
  cases e with
  | cacheCheck req =>
    cases hp : phaseOf sys req <;> cases hc : sys.cache <;>
      simp [idemMicroStep, hp, hc, hl]
  | lockAcquire req =>
    cases hp : phaseOf sys req <;> simp [idemMicroStep, hp, hl]
  | cacheRecheck req =>
    cases hp : phaseOf sys req <;> cases hc : sys.cache <;>
      simp [idemMicroStep, hp, hc, hl]
  | opComplete req result =>
    cases hp : phaseOf sys req <;> simp [idemMicroStep, hp, hl]
  | opError req =>
    cases hp : phaseOf sys req <;> simp [idemMicroStep, hp, hl]
  | lockRelease req => exact absurd rfl (hnorel req)

theorem idemMicroRun_locked_no_proceed (sys : IdemSys) (events : List IdemMicro)
    (hnorel : ∀ e ∈ events, ∀ r, e ≠ IdemMicro.lockRelease r)
    (hl : sys.lock = true) :
    proceedCount (idemMicroRun sys events).2 = 0 := by
  induction events generalizing sys with
  | nil => rfl
  | cons e rest ih =>
    have hstep := idemMicroStep_locked sys e (hnorel e (List.mem_cons_self _ _)) hl
    have hrest := ih (idemMicroStep sys e).1
      (fun x hx => hnorel x (List.mem_cons_of_mem _ hx)) hstep.1
    show proceedCount ((match (idemMicroStep sys e).2 with
      | some o => [o] | none => []) ++ (idemMicroRun (idemMicroStep sys e).1 rest).2) = 0
    rw [proceedCount_append, hrest, Nat.add_zero]
    cases ho : (idemMicroStep sys e).2 with
    | none => rfl
    | some o =>
      cases o with
      | replay r => simp [proceedCount]
      | conflict => simp [proceedCount]
      | proceed => exact absurd ho hstep.2

theorem idemMicroRun_at_most_one_without_release (sys : IdemSys)
    (events : List IdemMicro)
    (hnorel : ∀ e ∈ events, ∀ r, e ≠ IdemMicro.lockRelease r) :
    proceedCount (idemMicroRun sys events).2 ≤ 1 := by
  induction events generalizing sys with
  | nil => exact Nat.zero_le 1
  | cons e rest ih =>
    show proceedCount ((match (idemMicroStep sys e).2 with
      | some o => [o] | none => []) ++ (idemMicroRun (idemMicroStep sys e).1 rest).2) ≤ 1
    rw [proceedCount_append]
    by_cases hpr : (idemMicroStep sys e).2 = some GateOutcome.proceed
    · rw [hpr]
      have hlock := idemMicroStep_proceed_lock sys e hpr
      have hrest := idemMicroRun_locked_no_proceed (idemMicroStep sys e).1 rest
        (fun x hx => hnorel x (List.mem_cons_of_mem _ hx)) hlock
      rw [hrest]
      simp [proceedCount]
    · have hzero : proceedCount (match (idemMicroStep sys e).2 with
          | some o => [o] | none => []) = 0 := by
        cases ho : (idemMicroStep sys e).2 with
        | none => rfl
        | some o =>
          cases o with
          | replay r => simp [proceedCount]
          | conflict => simp [proceedCount]
          | proceed => exact absurd ho hpr
      rw [hzero, Nat.zero_add]
      exact ih (idemMicroStep sys e).1 (fun x hx => hnorel x (List.mem_cons_of_mem _ hx))

theorem setReferrer_conflict (store : List URow) (userId : Nat) (code : List Char)
    (user : URow) (hf : findUser store userId = some user)
    (ht : refTruthy user.referrerId = true) :
    setReferrer store userId code = (.error (.conflict "Referrer already set"), store) := by
  unfold setReferrer
  rw [hf]
  simp [ht]

theorem updateReferrers_single_overwrite (store : List URow) (refe refr : Nat)
    (h1 : natMem refe (store.map URow.id) = true)
    (h2 : natMem refr (store.map URow.id) = true)
    (h3 : checkCircularReference store refe refr = false) :
    updateReferrers store [⟨refe, refr⟩] =
      ({ updated := [(refe, refr)], failed := [] },
       store.map (fun x =>
         if x.id == refe then { x with referrerId := some refr } else x)) := by
  unfold updateReferrers
  show applyRefUpdate (store.map URow.id) (⟨[], []⟩, store) ⟨refe, refr⟩ = _
  unfold applyRefUpdate
  simp [h1, h2, h3]

theorem find?_filter_user (l : List Wallet) (u : Nat) (c : String) :
    (l.filter (fun w => w.userId == u)).find? (fun w => w.currency == c) =
      l.find? (fun w => w.userId == u && w.currency == c) := by
  induction l with
  | nil => rfl
  | cons a t ih =>
    by_cases hu : (a.userId == u) = true
    · by_cases hc : (a.currency == c) = true
      · simp [List.filter_cons, hu, List.find?_cons, hc]
      · simp [List.filter_cons, hu, List.find?_cons, hc, ih]
    · have hu' : (a.userId == u) = false := eq_false_of_ne_true hu
      simp [List.filter_cons, hu', List.find?_cons, ih]

theorem emptyWalletState_wf : WalletWF emptyWalletState :=
  ⟨List.Pairwise.nil, List.Pairwise.nil,
   fun w hw => absurd hw (List.not_mem_nil w),
   fun t ht => absurd ht (List.not_mem_nil t)⟩

theorem emptyWalletState_balanced : BalancedLedger emptyWalletState :=
  fun w hw => absurd hw (List.not_mem_nil w)

/-- C7: for every userId in [1, 10_000_000],
`decodeReferralCode (generateReferralCode userId)` equals `userId`. -/
theorem C7_referral_code_roundtrip (n : Nat) (h1 : 1 ≤ n) (h2 : n ≤ 10000000) :
    decodeReferralCode (generateReferralCode n) = .ok n :=
  decode_generate n

theorem C7_referral_code_roundtrip_witness :
    1 ≤ 12345 ∧ 12345 ≤ 10000000 ∧
      decodeReferralCode (generateReferralCode 12345) = .ok 12345 :=
  ⟨by decide, by decide, C7_referral_code_roundtrip 12345 (by decide) (by decide)⟩

/-- C8 counterexample: the claim says the decoder raises an error on every
string not matching `R[0-9A-Za-z]+`, but the single-character string `R`
does not match that pattern and still decodes without error, to 0. -/
theorem C8_decode_counterexample :
    decodeReferralCode ['R'] = .ok 0 ∧ matchesRCodePlus ['R'] = false :=
  ⟨rfl, rfl⟩

/-- C8 (amended): the decoder succeeds exactly on strings of shape
`R[0-9A-Za-z]*` (the bare prefix `R` decodes to 0); a missing `R` prefix
gives the invalid-format error, and a character outside the Base62
alphabet after the prefix gives the invalid-character error. -/
theorem C8_decode_error_amended (l : List Char) :
    (decodeOk (decodeReferralCode l) = matchesRCodeStar l) ∧
    ((∀ rest, l ≠ 'R' :: rest) →
      decodeReferralCode l = .error "Invalid referral code format") ∧
    (∀ rest, l = 'R' :: rest → rest.all (fun c => base62Chars.contains c) = false →
      decodeReferralCode l = .error "Invalid referral code character") := by
  refine ⟨decode_isOk_iff_star l, decode_format_error l, ?_⟩
  intro rest hl hbad
  subst hl
  show decodeChars rest 0 = _
  exact decodeChars_error_char rest 0 hbad

theorem C8_decode_error_amended_witness :
    decodeReferralCode ['X', '1'] = .error "Invalid referral code format" ∧
    decodeReferralCode ['R', '!'] = .error "Invalid referral code character" := by
  constructor
  · refine (C8_decode_error_amended ['X', '1']).2.1 ?_
    intro rest h
    injection h with h1 _
    exact absurd h1 (by decide)
  · exact (C8_decode_error_amended ['R', '!']).2.2 ['!'] rfl (by decide)

/-- C1: for amount > 0, `debitWallet` fails with NotFound when the wallet
row is absent and with the insufficient-balance BadRequest when
`balance < amount`, leaving the store (balances and transactions)
unchanged in both cases; on success the balance becomes
`balance - amount` (never negative) and exactly one DEBIT transaction
with `amount = -amount` is appended. -/
theorem C1_debit_wallet (u : Nat) (c : String) (a : Int) (d : String)
    (r s : Option String) (st : WalletState) (ha : 0 < a) :
    (findWallet st u c = none →
      debitWallet u c a d r s st = (.error (.notFound (c ++ " wallet not found")), st)) ∧
    (∀ w, findWallet st u c = some w → w.balance < a →
      debitWallet u c a d r s st = (.error (.badRequest "Insufficient balance"), st)) ∧
    (∀ w, findWallet st u c = some w → a ≤ w.balance →
      (debitWallet u c a d r s st).1 =
        .ok { id := st.nextTxnId, walletId := w.id, type := .DEBIT, amount := -a,
              description := d, internalNotes := mkInternalNotes s,
              referenceId := mkReferenceId r s, createdAt := st.now } ∧
      (debitWallet u c a d r s st).2.txns = st.txns ++
        [{ id := st.nextTxnId, walletId := w.id, type := .DEBIT, amount := -a,
           description := d, internalNotes := mkInternalNotes s,
           referenceId := mkReferenceId r s, createdAt := st.now }] ∧
      findWallet (debitWallet u c a d r s st).2 u c =
        some { w with balance := w.balance - a } ∧
      0 ≤ w.balance - a) := by
  refine ⟨fun hf => debitWallet_eq_notFound u c a d r s st hf,
    fun w hf hlt => debitWallet_eq_insufficient u c a d r s st w hf hlt, ?_⟩
  intro w hf hge
  rw [debitWallet_eq_success u c a d r s st w hf hge]
  exact ⟨rfl, rfl, findWallet_after_debit_update st u c a w hf, by omega⟩

theorem C1_debit_wallet_witness :
    debitWallet 1 "points" 150 "purchase" none none
        (creditWallet 1 "points" 100 "bonus" none none emptyWalletState).2 =
      (.error (.badRequest "Insufficient balance"),
       (creditWallet 1 "points" 100 "bonus" none none emptyWalletState).2) :=
  (C1_debit_wallet 1 "points" 150 "purchase" none none _ (by decide)).2.1
    { id := 0, userId := 1, currency := "points", balance := 100 } (by decide) (by decide)

/-- C2: starting from any well-formed ledger-consistent store, after any
finite sequence of credit/debit operations every wallet balance equals
the signed sum of the amounts of its transactions. -/
theorem C2_balance_conservation (ops : List WalletOp) (st : WalletState)
    (hwf : WalletWF st) (hbal : BalancedLedger st) :
    BalancedLedger (applyOps st ops) :=
  (applyOps_preserves ops st hwf hbal).2

theorem C2_balance_conservation_witness :
    BalancedLedger (applyOps emptyWalletState
      [.credit 1 "points" 100 "bonus" none none,
       .debit 1 "points" 40 "purchase" none none]) :=
  C2_balance_conservation _ _ emptyWalletState_wf emptyWalletState_balanced

/-- C3: for amount > 0, `creditWallet` creates the wallet with
`balance = amount` when absent and increments the balance otherwise;
it appends exactly one CREDIT transaction carrying the given description,
`internalNotes` of the form `via` + serviceName (null when no service),
and a `referenceId` prefixed with the service name and a colon; it has no
failure path. -/
theorem C3_credit_wallet (u : Nat) (c : String) (a : Int) (d : String)
    (r s : Option String) (st : WalletState) (ha : 0 < a) (hs : s ≠ some "") :
    ((creditWallet u c a d r s st).2.txns =
      st.txns ++ [(creditWallet u c a d r s st).1]) ∧
    ((creditWallet u c a d r s st).1.type = .CREDIT) ∧
    ((creditWallet u c a d r s st).1.amount = a) ∧
    ((creditWallet u c a d r s st).1.description = d) ∧
    (∀ sn, s = some sn →
      (creditWallet u c a d r s st).1.internalNotes = some ("via " ++ sn) ∧
      (creditWallet u c a d r s st).1.referenceId = some (sn ++ ":" ++ r.getD "")) ∧
    (s = none → (creditWallet u c a d r s st).1.internalNotes = none) ∧
    (findWallet st u c = none →
      findWallet (creditWallet u c a d r s st).2 u c =
        some { id := st.nextWalletId, userId := u, currency := c, balance := a }) ∧
    (∀ w, findWallet st u c = some w →
      findWallet (creditWallet u c a d r s st).2 u c =
        some { w with balance := w.balance + a }) := by
  have hnotes : ∀ sn, s = some sn →
      mkInternalNotes s = some ("via " ++ sn) ∧
      mkReferenceId r s = some (sn ++ ":" ++ r.getD "") := by
    intro sn hsn
    subst hsn
    have hne : (sn == "") = false :=
      beq_eq_false_iff_ne.mpr (fun he => hs (by rw [he]))
    constructor
    · unfold mkInternalNotes strTruthy
      simp [hne]
    · unfold mkReferenceId strTruthy
      simp [hne]
  have hnone : s = none → mkInternalNotes s = none := by
    intro hsn
    subst hsn
    rfl
  cases hf : findWallet st u c with
  | none =>
    rw [creditWallet_eq_create u c a d r s st hf]
    refine ⟨rfl, rfl, rfl, rfl, hnotes, hnone, fun _ => findWallet_after_create st u c a hf,
      ?_⟩
    intro w hw
    cases hw
  | some w =>
    rw [creditWallet_eq_update u c a d r s st w hf]
    refine ⟨rfl, rfl, rfl, rfl, hnotes, hnone, ?_, ?_⟩
    · intro hn
      cases hn
    · intro w' hw'
      injection hw' with hw'
      subst hw'
      exact findWallet_after_credit_update st u c a _ hf

theorem C3_credit_wallet_witness :
    findWallet (creditWallet 1 "points" 100 "bonus" none (some "svc")
        emptyWalletState).2 1 "points" =
      some { id := 0, userId := 1, currency := "points", balance := 100 } ∧
    (creditWallet 1 "points" 100 "bonus" none (some "svc")
        emptyWalletState).1.internalNotes = some ("via " ++ "svc") := by
  have h := C3_credit_wallet 1 "points" 100 "bonus" none (some "svc") emptyWalletState
    (by decide) (by decide)
  exact ⟨h.2.2.2.2.2.2.1 rfl, (h.2.2.2.2.1 "svc" rfl).1⟩

/-- C9 counterexample: the claim says every wallet created by
`creditWallet`, in any currency, is reflected in the map returned by
`getBalance`; but a `gap` wallet (a currency the internal credit schema
accepts) is not reflected — `getBalance` reports only points, usdt and
gemx. -/
theorem C9_get_balance_counterexample :
    "gap" ∈ internalCreditCurrencies ∧
    findWallet (creditWallet 1 "gap" 7 "promo" none none emptyWalletState).2 1 "gap" =
      some { id := 0, userId := 1, currency := "gap", balance := 7 } ∧
    (getBalance 1 (creditWallet 1 "gap" 7 "promo" none none
      emptyWalletState).2).lookup "gap" = none :=
  ⟨by decide, by decide, by decide⟩

/-- C9 (amended): `getBalance` returns exactly the three entries points,
usdt and gemx, each reporting the wallet balance or 0 when no row exists
(creating none); wallets in any other currency accepted by the internal
credit schema are not reflected in the returned map. -/
theorem C9_get_balance_amended (u : Nat) (st : WalletState) :
    getBalance u st =
      [("points", walletBal st u "points"), ("usdt", walletBal st u "usdt"),
       ("gemx", walletBal st u "gemx")] ∧
    (∀ c : String, ¬c ∈ (["points", "usdt", "gemx"] : List String) →
      (getBalance u st).lookup c = none) := by
  constructor
  · unfold getBalance walletBal findWallet
    dsimp only
    rw [find?_filter_user st.wallets u "points", find?_filter_user st.wallets u "usdt",
      find?_filter_user st.wallets u "gemx"]
  · intro c hc
    have h1 : (c == "points") = false := by
      apply beq_eq_false_iff_ne.mpr
      intro he
      exact hc (by rw [he]; exact List.mem_cons_self _ _)
    have h2 : (c == "usdt") = false := by
      apply beq_eq_false_iff_ne.mpr
      intro he
      exact hc (by rw [he]; simp)
    have h3 : (c == "gemx") = false := by
      apply beq_eq_false_iff_ne.mpr
      intro he
      exact hc (by rw [he]; simp)
    unfold getBalance
    simp [List.lookup, h1, h2, h3]

theorem C9_get_balance_amended_witness :
    (getBalance 1 (creditWallet 1 "gap" 7 "promo" none none
      emptyWalletState).2).lookup "commission" = none :=
  (C9_get_balance_amended 1 _).2 "commission" (by decide)

/-- C10: `getTransactionByReference` returns null exactly when no stored
transaction passes its filters, and otherwise returns the audit
projection (including internalNotes) of a matching transaction whose
`createdAt` is maximal among all matches. -/
theorem C10_get_transaction_by_reference (wt : String) (tt : TxnType) (rid : String)
    (uid : Option Nat) (st : WalletState) :
    (getTransactionByReference wt tt rid uid st = none ↔
      ∀ t ∈ st.txns, txnrefMatches st wt tt rid uid t = false) ∧
    (∀ a, getTransactionByReference wt tt rid uid st = some a →
      ∃ t ∈ st.txns, txnrefMatches st wt tt rid uid t = true ∧ a = toAudit st t ∧
        a.internalNotes = t.internalNotes ∧
        (∀ tu ∈ st.txns, txnrefMatches st wt tt rid uid tu = true →
          tu.createdAt ≤ t.createdAt)) := by
  constructor
  · unfold getTransactionByReference
    rw [Option.map_eq_none', pickLatest_eq_none_iff, List.filter_eq_nil_iff]
    constructor
    · intro h t ht
      exact eq_false_of_ne_true (h t ht)
    · intro h t ht
      rw [h t ht]
      simp
  · intro a ha
    unfold getTransactionByReference at ha
    rcases Option.map_eq_some'.mp ha with ⟨t, hpick, hat⟩
    obtain ⟨hmem, hmax⟩ := pickLatest_spec _ t hpick
    rw [List.mem_filter] at hmem
    refine ⟨t, hmem.1, hmem.2, hat.symm, ?_, ?_⟩
    · rw [← hat]
      rfl
    · intro tu htu hmtu
      exact hmax tu (List.mem_filter.mpr ⟨htu, hmtu⟩)

theorem C10_get_transaction_by_reference_witness :
    ∃ t ∈ sampleAuditState.txns,
      txnrefMatches sampleAuditState "points" TxnType.CREDIT "ord_1" (some 1) t = true ∧
      sampleAudit = toAudit sampleAuditState t ∧
      sampleAudit.internalNotes = t.internalNotes ∧
      (∀ tu ∈ sampleAuditState.txns,
        txnrefMatches sampleAuditState "points" TxnType.CREDIT "ord_1" (some 1) tu = true →
        tu.createdAt ≤ t.createdAt) :=
  (C10_get_transaction_by_reference "points" .CREDIT "ord_1" (some 1)
    sampleAuditState).2 sampleAudit (by decide)

/-- C5 counterexample: the claim says no operation modifies an existing
non-null referrerId, but `updateReferrers` overwrites it: user 1 already
has referrer 2, and the batch update to referrer 3 succeeds and changes
the stored value. -/
theorem C5_referrer_overwrite_counterexample :
    findUser [⟨1, some 2⟩, ⟨2, none⟩, ⟨3, none⟩] 1 = some ⟨1, some 2⟩ ∧
    refTruthy (some 2) = true ∧
    (updateReferrers [⟨1, some 2⟩, ⟨2, none⟩, ⟨3, none⟩] [⟨1, 3⟩]).2 =
      [⟨1, some 3⟩, ⟨2, none⟩, ⟨3, none⟩] := by
  refine ⟨by decide, by decide, ?_⟩
  have hcc : checkCircularReference [⟨1, some 2⟩, ⟨2, none⟩, ⟨3, none⟩] 1 3 = false := by
    unfold checkCircularReference
    rw [if_neg (by decide)]
    exact walk_eq_dead _ 1 3 [] rfl (by decide) (by decide)
  have h := updateReferrers_single_overwrite [⟨1, some 2⟩, ⟨2, none⟩, ⟨3, none⟩] 1 3
    (by decide) (by decide) hcc
  rw [h]
  decide

/-- C5 (amended): `setReferrer` does enforce one-time assignment — it
fails with Conflict and leaves the store unchanged when the user's
referrerId is already set — but the service-facing batch
`updateReferrers` does not: whenever both users exist and the cycle check
passes, it sets the referee's referrerId unconditionally, overwriting any
existing non-null value. -/
theorem C5_referrer_one_time_amended :
    (∀ (store : List URow) (userId : Nat) (code : List Char) (user : URow),
      findUser store userId = some user → refTruthy user.referrerId = true →
      setReferrer store userId code =
        (.error (.conflict "Referrer already set"), store)) ∧
    (∀ (store : List URow) (refe refr : Nat),
      natMem refe (store.map URow.id) = true →
      natMem refr (store.map URow.id) = true →
      checkCircularReference store refe refr = false →
      updateReferrers store [⟨refe, refr⟩] =
        ({ updated := [(refe, refr)], failed := [] },
         store.map (fun x =>
           if x.id == refe then { x with referrerId := some refr } else x))) :=
  ⟨setReferrer_conflict, updateReferrers_single_overwrite⟩

theorem C5_referrer_one_time_amended_witness :
    setReferrer [⟨1, some 2⟩, ⟨2, none⟩] 1 ['R', '0', '0', '0', '2'] =
      (.error (.conflict "Referrer already set"), [⟨1, some 2⟩, ⟨2, none⟩]) :=
  C5_referrer_one_time_amended.1 [⟨1, some 2⟩, ⟨2, none⟩] 1 ['R', '0', '0', '0', '2']
    ⟨1, some 2⟩ (by decide) (by decide)

/-- C6: when a user with no referrer submits a code that decodes to an
existing candidate, `setReferrer` rejects with the circular-reference
BadRequest exactly when the user is reachable from the candidate along
`referrerId` pointers (including candidate = user), and otherwise
persists the referrer. -/
theorem C6_set_referrer_cycle (store : List URow) (userId : Nat) (code : List Char)
    (cand : Nat) (user refRow : URow)
    (hu : findUser store userId = some user) (hnr : refTruthy user.referrerId = false)
    (hdec : decodeReferralCode code = .ok cand)
    (href : findUser store cand = some refRow) :
    ((setReferrer store userId code).1 =
        .error (.badRequest "Circular reference detected") ↔
      ReachesRef store cand userId) ∧
    (¬ReachesRef store cand userId →
      setReferrer store userId code =
        (.ok { id := userId, referrerId := some cand },
         store.map (fun x =>
           if x.id == userId then { x with referrerId := some cand } else x))) := by
  have hpos : checkCircularReference store userId cand = true →
      setReferrer store userId code =
        (.error (.badRequest "Circular reference detected"), store) := by
    intro hcc
    unfold setReferrer
    rw [hu]
    simp [hnr, hdec, href, hcc]
  have hneg : checkCircularReference store userId cand = false →
      setReferrer store userId code =
        (.ok { id := userId, referrerId := some cand },
         store.map (fun x =>
           if x.id == userId then { x with referrerId := some cand } else x)) := by
    intro hcc
    unfold setReferrer
    rw [hu]
    simp [hnr, hdec, href, hcc]
  constructor
  · constructor
    · intro h
      cases hcb : checkCircularReference store userId cand with
      | false =>
        rw [hneg hcb] at h
        simp at h
      | true => exact (checkCircular_iff_reaches store userId cand).mp hcb
    · intro hre
      rw [hpos ((checkCircular_iff_reaches store userId cand).mpr hre)]
  · intro hnre
    have hcb : checkCircularReference store userId cand = false := by
      cases hcb2 : checkCircularReference store userId cand with
      | false => rfl
      | true => exact absurd ((checkCircular_iff_reaches store userId cand).mp hcb2) hnre
    exact hneg hcb

theorem C6_set_referrer_cycle_witness :
    (setReferrer [⟨1, none⟩, ⟨2, some 1⟩, ⟨3, some 2⟩, ⟨4, none⟩] 1
        ['R', '0', '0', '0', '3']).1 =
      .error (.badRequest "Circular reference detected") ∧
    (setReferrer [⟨1, none⟩, ⟨2, some 1⟩, ⟨3, some 2⟩, ⟨4, none⟩] 4
        ['R', '0', '0', '0', '3']).1 = .ok { id := 4, referrerId := some 3 } := by
  constructor
  · exact ((C6_set_referrer_cycle [⟨1, none⟩, ⟨2, some 1⟩, ⟨3, some 2⟩, ⟨4, none⟩] 1
      ['R', '0', '0', '0', '3'] 3 ⟨1, none⟩ ⟨3, some 2⟩ (by decide) (by decide)
      (by rfl) (by decide)).1).mpr ⟨2, by decide⟩
  · have hnr : ¬ReachesRef [⟨1, none⟩, ⟨2, some 1⟩, ⟨3, some 2⟩, ⟨4, none⟩] 3 4 := by
      rintro ⟨n, hn⟩
      match n with
      | 0 => exact absurd hn (by decide)
      | 1 => exact absurd hn (by decide)
      | 2 => exact absurd hn (by decide)
      | (m + 3) =>
        rw [show m + 3 = 3 + m from by omega] at hn
        rw [refIter_add_eq [⟨1, none⟩, ⟨2, some 1⟩, ⟨3, some 2⟩, ⟨4, none⟩] 3 m 3] at hn
        rw [show refIter [⟨1, none⟩, ⟨2, some 1⟩, ⟨3, some 2⟩, ⟨4, none⟩] 3 3 = none
          from by decide] at hn
        exact absurd hn (by simp)
    have h := (C6_set_referrer_cycle [⟨1, none⟩, ⟨2, some 1⟩, ⟨3, some 2⟩, ⟨4, none⟩] 4
      ['R', '0', '0', '0', '3'] 3 ⟨4, none⟩ ⟨3, some 2⟩ (by decide) (by decide)
      (by rfl) (by decide)).2 hnr
    rw [h]

/-- C4: failing trace for the at-most-once claim.  The middleware's
result-cache read and its `SET NX` lock acquisition are two separately
awaited Redis calls, so on one idempotency key the schedule "request 0
checks the cache, acquires the lock and executes; request 1 checks the
cache (miss — request 0 has not cached yet); request 0 caches its result
and its finished response releases the lock; request 1 now acquires the
freed lock" makes the guarded operation execute twice, although every
completion succeeded and the trace never releases a lock mid-operation. -/
theorem C4_idempotency_double_execution :
    ([IdemMicro.cacheCheck 0, IdemMicro.lockAcquire 0, IdemMicro.cacheCheck 1,
      IdemMicro.opComplete 0 "res", IdemMicro.lockRelease 0,
      IdemMicro.lockAcquire 1].all (fun e => !(isOpError e)) = true) ∧
    proceedCount (idemMicroRun idemInit
      [IdemMicro.cacheCheck 0, IdemMicro.lockAcquire 0, IdemMicro.cacheCheck 1,
       IdemMicro.opComplete 0 "res", IdemMicro.lockRelease 0,
       IdemMicro.lockAcquire 1]).2 = 2 :=
  ⟨by decide, by decide⟩
